import Mathlib

/-!
Verification of the Anastasia temporal-attribute framework
(src/anastasia/anastasia.py).

The embedding models:
* Python dictionaries as association lists with Python's insert-or-replace
  semantics (`Dict`, `dictInsert`, `dictGet`);
* Python values and the mutable heap (`PyVal`, `Heap`), so that
  `copy.deepcopy` isolation and in-place mutation are expressible;
* the `TemporalAttribute` descriptor state (the three per-instance
  `WeakKeyDictionary` tables) together with `__get__`, `__set__`,
  `_set_snapshot_for_instance` and `set_snapshot`;
* the `Anastasia.context` context manager as a small program semantics
  over the class-wide `as_of_timestamp` viewpoint.

Timestamps (`datetime.datetime` values produced by `datetime.datetime.now()`)
are modelled as natural numbers supplied explicitly to each operation, since
the clock is an external input of the code.
-/

namespace Anastasia

/-- An association list with Python-dict semantics: at most one entry per
key (maintained by `dictInsert`), insertion order preserved. -/
abbrev Dict (α β : Type) := List (α × β)

/-- Python dict assignment `d[k] = v`: replace the value in place if the key
is present, otherwise append the new entry at the end. -/
def dictInsert {α β : Type} [DecidableEq α] : Dict α β → α → β → Dict α β
  | [], k, v => [(k, v)]
  | (k', v') :: rest, k, v =>
    if k' = k then (k, v) :: rest else (k', v') :: dictInsert rest k v

/-- Python dict lookup `d[k]` / `k in d`: the value at the first entry with
the given key, if any. -/
def dictGet {α β : Type} [DecidableEq α] : Dict α β → α → Option β
  | [], _ => none
  | (k', v) :: rest, k => if k' = k then some v else dictGet rest k

/-- A mutable Python object on the heap: a flat record of integer fields,
plus the two copyability traits the source's fallback chain inspects
(`copy.deepcopy` succeeding, and `hasattr(value, '__copy__')`). -/
structure HeapObj where
  fields : List Int
  deepCopyable : Bool
  hasCopyMethod : Bool
  deriving DecidableEq

/-- A Python value: `None`, an immutable scalar (int or str), a `datetime`
timestamp object, or a reference to a mutable heap object. -/
inductive PyVal where
  | pynone
  | pyint (n : Int)
  | pystr (s : String)
  | tstamp (t : Nat)
  | ref (a : Nat)
  deriving DecidableEq

/-- The Python heap: allocated objects by address, plus the next fresh
address. -/
structure Heap where
  mem : Dict Nat HeapObj
  next : Nat
  deriving DecidableEq

/-- The empty heap. -/
def emptyHeap : Heap := ⟨[], 0⟩

/-- Well-formedness: every allocated address is below the allocation
frontier. -/
def heapWF (h : Heap) : Prop := ∀ p ∈ h.mem, p.1 < h.next

/-- `copy.deepcopy(value)` with the source's fallback chain
(lines 377-382): try a deep copy; if the object is not deep-copyable,
fall back to `copy.copy` when it has `__copy__`; otherwise store the
reference as-is.  A successful copy allocates a fresh object with the same
fields. -/
def deepcopy (h : Heap) (v : PyVal) : PyVal × Heap :=
  match v with
  | .ref a =>
    match dictGet h.mem a with
    | some o =>
      if o.deepCopyable then
        (.ref h.next, ⟨dictInsert h.mem h.next o, h.next + 1⟩)
      else if o.hasCopyMethod then
        (.ref h.next, ⟨dictInsert h.mem h.next o, h.next + 1⟩)
      else
        (.ref a, h)
    | none => (.ref a, h)
  | w => (w, h)

/-- In-place mutation of the object at address `a` (e.g.
`obj.field = ...` on the live value): replace its fields. -/
def mutateObj (h : Heap) (a : Nat) (fs : List Int) : Heap :=
  match dictGet h.mem a with
  | some o => ⟨dictInsert h.mem a { o with fields := fs }, h.next⟩
  | none => h

/-- What a caller observes when fully inspecting a value: scalars are
themselves, references are read through the heap. -/
inductive Obs where
  | onone
  | oint (n : Int)
  | ostr (s : String)
  | otime (t : Nat)
  | oobj (fields : List Int)
  | odangling
  deriving DecidableEq

/-- Observe a value through the heap. -/
def observe (h : Heap) : PyVal → Obs
  | .pynone => .onone
  | .pyint n => .oint n
  | .pystr s => .ostr s
  | .tstamp t => .otime t
  | .ref a =>
    match dictGet h.mem a with
    | some o => .oobj o.fields
    | none => .odangling

/-- Errors raised by the descriptor: the `ValueError` of `__get__`
("No snapshot for name found at or before timestamp", carrying the field
name and the requested timestamp), and the `RuntimeError` of
`set_snapshot` called without an instance. -/
inductive TemporalError where
  | noSnapshot (fieldName : String) (requested : Nat)
  | missingInstance
  deriving DecidableEq

/-- Result of a successful `__get__` on an instance: a raw historical
value (time-travel mode) or a `TemporalValue` wrapper around the current
value, bound to the instance. -/
inductive GetResult where
  | historical (v : PyVal)
  | temporalValue (v : PyVal) (i : Nat)
  deriving DecidableEq

/-- The `TemporalAttribute` descriptor state: the field name and the three
per-instance `WeakKeyDictionary` tables (`_instance_snapshots`,
`_instance_current_values`, `_instance_value_set`).  Instances are opaque
identities, modelled as naturals.  Each per-instance snapshot table maps a
timestamp to the stored (copied) value. -/
structure TemporalAttribute where
  name : String
  instanceSnapshots : Dict Nat (Dict Nat PyVal)
  instanceCurrentValues : Dict Nat PyVal
  instanceValueSet : Dict Nat Bool
  deriving DecidableEq

/-- A freshly constructed descriptor (no instance has been touched). -/
def emptyAttr (nm : String) : TemporalAttribute := ⟨nm, [], [], []⟩

/-- `if instance not in self._instance_snapshots: ... = {}` -/
def ensureSnapshots (st : TemporalAttribute) (i : Nat) : TemporalAttribute :=
  if (dictGet st.instanceSnapshots i).isSome then st
  else { st with instanceSnapshots := dictInsert st.instanceSnapshots i [] }

/-- `if instance not in self._instance_current_values: ... = cast(T, None)` -/
def ensureCurrent (st : TemporalAttribute) (i : Nat) : TemporalAttribute :=
  if (dictGet st.instanceCurrentValues i).isSome then st
  else { st with instanceCurrentValues := dictInsert st.instanceCurrentValues i .pynone }

/-- `if instance not in self._instance_value_set: ... = False` -/
def ensureValueSet (st : TemporalAttribute) (i : Nat) : TemporalAttribute :=
  if (dictGet st.instanceValueSet i).isSome then st
  else { st with instanceValueSet := dictInsert st.instanceValueSet i false }

/-- The snapshot history observed for instance `i` (a missing table entry
reads as the empty dict, exactly as the lazy initialisation produces). -/
def snapshotsObs (st : TemporalAttribute) (i : Nat) : Dict Nat PyVal :=
  (dictGet st.instanceSnapshots i).getD []

/-- The current value observed for instance `i` (missing entry reads as
`None`, as `cast(T, None)` initialises it). -/
def currentObs (st : TemporalAttribute) (i : Nat) : PyVal :=
  (dictGet st.instanceCurrentValues i).getD .pynone

/-- The has-been-set flag observed for instance `i` (missing entry reads
as `False`). -/
def valueSetObs (st : TemporalAttribute) (i : Nat) : Bool :=
  (dictGet st.instanceValueSet i).getD false

/-- The combined lazy initialisation of the three per-instance tables, as
performed at the top of both `__get__` and `_set_snapshot_for_instance`. -/
def ensureAll (st : TemporalAttribute) (i : Nat) : TemporalAttribute :=
  ensureValueSet (ensureCurrent (ensureSnapshots st i) i) i

/-- `TemporalAttribute._set_snapshot_for_instance` (lines 355-384): ensure
the per-instance tables exist, set the current value and the flag, store a
deep copy of the value in the snapshot dict under the current wall-clock
timestamp `ts`, and return `None` (the Python function has no return
statement). -/
def setSnapshotForInstance (st : TemporalAttribute) (h : Heap) (i : Nat)
    (v : PyVal) (ts : Nat) : PyVal × TemporalAttribute × Heap :=
  let st1 := ensureAll st i
  let st2 := { st1 with
    instanceCurrentValues := dictInsert st1.instanceCurrentValues i v,
    instanceValueSet := dictInsert st1.instanceValueSet i true }
  let cp := deepcopy h v
  let snaps := (dictGet st2.instanceSnapshots i).getD []
  let st3 := { st2 with
    instanceSnapshots := dictInsert st2.instanceSnapshots i (dictInsert snaps ts cp.1) }
  (.pynone, st3, cp.2)

/-- One step of the maximum-key scan: keep the entry with the strictly
larger key (the earlier entry on a tie; keys are unique in a dict, so
ties never arise on real snapshot tables). -/
def maxStep (acc : Option (Nat × PyVal)) (p : Nat × PyVal) : Option (Nat × PyVal) :=
  match acc with
  | none => some p
  | some q => if q.1 < p.1 then some p else some q

/-- The maximum-key selection of `__get__`'s time-travel branch
(`most_recent_timestamp = max(valid_snapshots.keys())` followed by the
dict lookup `valid_snapshots[most_recent_timestamp]`), as a single pass
over the (unique-keyed) valid entries. -/
def maxValid (valid : Dict Nat PyVal) : Option (Nat × PyVal) :=
  valid.foldl maxStep none

/-- `TemporalAttribute.__get__` for an instance access (lines 287-330):
ensure the per-instance tables, then either resolve against the history
(when a viewpoint `asOf` is active) or return the wrapped current value,
lazily initialising from the factory on the first-ever normal access.
The final `Bool` records whether the initial-value factory was invoked. -/
def getStep (st : TemporalAttribute) (h : Heap) (factory : Nat → PyVal)
    (i : Nat) (asOf : Option Nat) (nowTs : Nat) :
    Except TemporalError GetResult × TemporalAttribute × Heap × Bool :=
  let st1 := ensureAll st i
  match asOf with
  | some t =>
    let snaps := (dictGet st1.instanceSnapshots i).getD []
    let valid := snaps.filter (fun p => p.1 ≤ t)
    match maxValid valid with
    | none => (.error (.noSnapshot st1.name t), st1, h, false)
    | some p => (.ok (.historical p.2), st1, h, false)
  | none =>
    if (dictGet st1.instanceValueSet i).getD false = false then
      let initial := factory i
      let r := setSnapshotForInstance st1 h i initial nowTs
      (.ok (.temporalValue ((dictGet r.2.1.instanceCurrentValues i).getD .pynone) i),
        r.2.1, r.2.2, true)
    else
      (.ok (.temporalValue ((dictGet st1.instanceCurrentValues i).getD .pynone) i),
        st1, h, false)

/-- `TemporalAttribute.__set__` (lines 332-353): ensure the per-instance
tables, then set the current value and the flag without touching the
snapshot history. -/
def setStep (st : TemporalAttribute) (i : Nat) (v : PyVal) : TemporalAttribute :=
  let st1 := ensureSnapshots (ensureValueSet (ensureCurrent st i) i) i
  { st1 with
    instanceCurrentValues := dictInsert st1.instanceCurrentValues i v,
    instanceValueSet := dictInsert st1.instanceValueSet i true }

/-- `TemporalAttribute.set_snapshot` (lines 386-402): raises `RuntimeError`
when called without an instance, otherwise delegates to
`_set_snapshot_for_instance` and returns its result. -/
def setSnapshot (st : TemporalAttribute) (h : Heap) (v : PyVal)
    (inst : Option Nat) (ts : Nat) :
    Except TemporalError (PyVal × TemporalAttribute × Heap) :=
  match inst with
  | none => .error .missingInstance
  | some i => .ok (setSnapshotForInstance st h i v ts)

/-- An operation applied to one descriptor (one field), as driven by the
host program: a normal read (`__get__` with no viewpoint, at wall-clock
time `nowTs`), a time-travel read (`__get__` under viewpoint `t`), a plain
assignment (`__set__`), or an explicit snapshot
(`_set_snapshot_for_instance` at wall-clock time `ts`). -/
inductive Op where
  | readNormal (i : Nat) (nowTs : Nat)
  | readAsOf (i : Nat) (t : Nat)
  | assign (i : Nat) (v : PyVal)
  | snap (i : Nat) (v : PyVal) (ts : Nat)
  deriving DecidableEq

/-- Run one operation on the descriptor state and heap. -/
def runOp (factory : Nat → PyVal) :
    TemporalAttribute × Heap → Op → TemporalAttribute × Heap
  | (st, h), .readNormal i ts =>
    let r := getStep st h factory i none ts
    (r.2.1, r.2.2.1)
  | (st, h), .readAsOf i t =>
    let r := getStep st h factory i (some t) 0
    (r.2.1, r.2.2.1)
  | (st, h), .assign i v => (setStep st i v, h)
  | (st, h), .snap i v ts =>
    let r := setSnapshotForInstance st h i v ts
    (r.2.1, r.2.2)

/-- Run a list of operations in order. -/
def runOps (factory : Nat → PyVal) (s : TemporalAttribute × Heap)
    (ops : List Op) : TemporalAttribute × Heap :=
  ops.foldl (runOp factory) s

/-- Instance `i` has all three per-instance table entries present and its
has-been-set flag raised — the situation after any write, snapshot or
completed normal read of `i`. -/
def readyInv (st : TemporalAttribute) (i : Nat) : Prop :=
  (dictGet st.instanceSnapshots i).isSome ∧
  (dictGet st.instanceCurrentValues i).isSome ∧
  dictGet st.instanceValueSet i = some true

/-- Operations that never add a snapshot entry for instance `i`: anything
except an explicit snapshot of `i`. -/
def keepsHistoryBlank (i : Nat) : Op → Bool
  | .snap j _ _ => j ≠ i
  | _ => true

/-- The effect of one operation on the current value of instance `i`:
a plain assignment to `i` replaces it, anything else keeps it. -/
def assignUpdate (i : Nat) (op : Op) (d : PyVal) : PyVal :=
  match op with
  | .assign j w => if j = i then w else d
  | _ => d

/-- The value held by the most recent plain assignment to instance `i`
within an operation list, defaulting to `dflt`. -/
def lastAssigned (i : Nat) (ops : List Op) (dflt : PyVal) : PyVal :=
  ops.foldl (fun acc op => assignUpdate i op acc) dflt

/-- An initial-value factory like the test suite's fixture
(`def initial_value_func(instance): return "initial_value"`), used to
instantiate concrete scenarios. -/
def initialValueFunc : Nat → PyVal := fun _ => PyVal.pystr "initial_value"

/-- A factory returning a fixed integer, used for concrete scenarios. -/
def intFactory : Nat → PyVal := fun _ => PyVal.pyint 3

/-- A host program manipulating the class-wide viewpoint
`as_of_timestamp`: it can do nothing, raise an exception, set the class
attribute directly, sequence two programs, or enter an
`Anastasia.context(t)` scope around a body. -/
inductive Prog where
  | skip
  | raise
  | setRaw (t : Option Nat)
  | seq (p q : Prog)
  | withVp (t : Option Nat) (body : Prog)

/-- Run a program from a current viewpoint.  Returns the final viewpoint,
whether an exception is propagating, and — for every `withVp` scope
executed — the pair (viewpoint observed immediately before entry,
viewpoint observed immediately after exit).  `Anastasia.context`
(lines 477-508) saves `cls.as_of_timestamp`, sets the new viewpoint, and
in a `finally` block unconditionally restores the saved value, so a scope
exits with the saved viewpoint whether or not its body raised. -/
def runProg : Prog → Option Nat → Option Nat × Bool × List (Option Nat × Option Nat)
  | .skip, s => (s, false, [])
  | .raise, s => (s, true, [])
  | .setRaw t, _ => (t, false, [])
  | .seq p q, s =>
    match runProg p s with
    | (s1, true, l1) => (s1, true, l1)
    | (s1, false, l1) =>
      match runProg q s1 with
      | (s2, e2, l2) => (s2, e2, l1 ++ l2)
  | .withVp t body, s =>
    let saved := s
    match runProg body t with
    | (_, e, l) => (saved, e, l ++ [(s, saved)])

/-! ### Dictionary lemmas -/

theorem dictGet_nil {α β : Type} [DecidableEq α] (k : α) :
    dictGet ([] : Dict α β) k = none := rfl

theorem dictGet_insert {α β : Type} [DecidableEq α] (d : Dict α β) (k k' : α) (v : β) :
    dictGet (dictInsert d k v) k' = if k = k' then some v else dictGet d k' := by
  induction d with
  | nil => simp [dictInsert, dictGet]
  | cons p rest ih =>
    obtain ⟨a, b⟩ := p
    by_cases hak : a = k
    · subst hak
      simp only [dictInsert, if_pos rfl, dictGet]
      by_cases hkk : a = k'
      · simp [hkk]
      · simp [hkk]
    · simp only [dictInsert, if_neg hak, dictGet]
      by_cases hak' : a = k'
      · subst hak'
        have : ¬ k = a := fun h => hak h.symm
        simp [this]
      · simp [hak', ih]

theorem dictInsert_insert_same {α β : Type} [DecidableEq α] (d : Dict α β) (k : α) (a b : β) :
    dictInsert (dictInsert d k a) k b = dictInsert d k b := by
  induction d with
  | nil => simp [dictInsert]
  | cons p rest ih =>
    obtain ⟨x, y⟩ := p
    by_cases hxk : x = k
    · subst hxk
      simp [dictInsert]
    · simp [dictInsert, hxk, ih]

theorem dictInsert_of_get_none {α β : Type} [DecidableEq α] (d : Dict α β) (k : α) (v : β)
    (h : dictGet d k = none) : dictInsert d k v = d ++ [(k, v)] := by
  induction d with
  | nil => simp [dictInsert]
  | cons p rest ih =>
    obtain ⟨x, y⟩ := p
    simp only [dictGet] at h
    by_cases hxk : x = k
    · simp [hxk] at h
    · simp only [dictInsert, if_neg hxk, List.cons_append, List.cons.injEq, true_and]
      exact ih (by simpa [hxk] using h)

theorem dictGet_eq_none_of_forall {α β : Type} [DecidableEq α] (d : Dict α β) (k : α)
    (h : ∀ p ∈ d, p.1 ≠ k) : dictGet d k = none := by
  induction d with
  | nil => rfl
  | cons p rest ih =>
    obtain ⟨x, y⟩ := p
    have hx : x ≠ k := h (x, y) (List.mem_cons_self _ _)
    simp only [dictGet, if_neg hx]
    exact ih fun q hq => h q (List.mem_cons_of_mem _ hq)

/-! ### Maximum-key scan lemmas -/

theorem maxStep_some (acc : Option (Nat × PyVal)) (p r : Nat × PyVal)
    (h : maxStep acc p = some r) :
    p.1 ≤ r.1 ∧ (∀ a, acc = some a → a.1 ≤ r.1) ∧ (acc = some r ∨ r = p) := by
  cases acc with
  | none =>
    simp only [maxStep] at h
    injection h with h
    subst h
    exact ⟨le_refl _, by simp, Or.inr rfl⟩
  | some a =>
    simp only [maxStep] at h
    by_cases ha : a.1 < p.1
    · rw [if_pos ha] at h
      injection h with h
      subst h
      exact ⟨le_refl _, fun b hb => by cases hb; exact Nat.le_of_lt ha, Or.inr rfl⟩
    · rw [if_neg ha] at h
      injection h with h
      subst h
      exact ⟨Nat.le_of_not_lt ha, fun b hb => by cases hb; exact le_refl _, Or.inl rfl⟩

theorem maxStep_isSome (acc : Option (Nat × PyVal)) (p : Nat × PyVal) :
    ∃ r, maxStep acc p = some r := by
  cases acc with
  | none => exact ⟨p, rfl⟩
  | some a =>
    by_cases ha : a.1 < p.1
    · exact ⟨p, by simp [maxStep, if_pos ha]⟩
    · exact ⟨a, by simp [maxStep, if_neg ha]⟩

theorem foldl_maxStep_some (l : Dict Nat PyVal) :
    ∀ (acc : Option (Nat × PyVal)) (q : Nat × PyVal), l.foldl maxStep acc = some q →
      (acc = some q ∨ q ∈ l) ∧ (∀ p ∈ l, p.1 ≤ q.1) ∧
      (∀ a, acc = some a → a.1 ≤ q.1) := by
  induction l with
  | nil =>
    intro acc q h
    simp only [List.foldl_nil] at h
    subst h
    exact ⟨Or.inl rfl, by simp, fun a ha => by cases ha; exact le_refl _⟩
  | cons p rest ih =>
    intro acc q h
    simp only [List.foldl_cons] at h
    obtain ⟨hmem, hle, hacc⟩ := ih (maxStep acc p) q h
    obtain ⟨a, ha⟩ := maxStep_isSome acc p
    obtain ⟨hpa, haccle, hwhich⟩ := maxStep_some acc p a ha
    have haq : a.1 ≤ q.1 := hacc a ha
    have hpq : p.1 ≤ q.1 := le_trans hpa haq
    refine ⟨?_, ?_, ?_⟩
    · cases hmem with
      | inl hm =>
        rw [ha] at hm
        injection hm with hm
        subst hm
        cases hwhich with
        | inl hsame => exact Or.inl hsame
        | inr hp => exact Or.inr (hp ▸ List.mem_cons_self _ _)
      | inr hm => exact Or.inr (List.mem_cons_of_mem _ hm)
    · intro r hr
      rcases List.mem_cons.mp hr with hr | hr
      · exact hr ▸ hpq
      · exact hle r hr
    · intro b hb
      exact le_trans (haccle b hb) haq

theorem maxValid_mem (l : Dict Nat PyVal) (q : Nat × PyVal) (h : maxValid l = some q) :
    q ∈ l := by
  obtain ⟨hmem, _, _⟩ := foldl_maxStep_some l none q h
  cases hmem with
  | inl hm => cases hm
  | inr hm => exact hm

theorem maxValid_le (l : Dict Nat PyVal) (q : Nat × PyVal) (h : maxValid l = some q) :
    ∀ p ∈ l, p.1 ≤ q.1 :=
  (foldl_maxStep_some l none q h).2.1

theorem maxValid_eq_none_iff (l : Dict Nat PyVal) : maxValid l = none ↔ l = [] := by
  constructor
  · intro h
    cases l with
    | nil => rfl
    | cons p rest =>
      exfalso
      have hsome : ∀ (m : Dict Nat PyVal) (acc : Nat × PyVal),
          ∃ r, m.foldl maxStep (some acc) = some r := by
        intro m
        induction m with
        | nil => exact fun acc => ⟨acc, rfl⟩
        | cons x xs ihm =>
          intro acc
          simp only [List.foldl_cons]
          obtain ⟨r, hr⟩ := maxStep_isSome (some acc) x
          rw [hr]
          exact ihm r
      obtain ⟨r, hr⟩ := hsome rest p
      rw [maxValid, List.foldl_cons] at h
      have : maxStep none p = some p := rfl
      rw [this, hr] at h
      cases h
  · intro h
    subst h
    rfl

theorem maxValid_append_single (l : Dict Nat PyVal) (p : Nat × PyVal) :
    maxValid (l ++ [p]) = maxStep (maxValid l) p := by
  simp [maxValid, List.foldl_append]

/-- On a list whose keys all lie strictly below the key of the final
entry, the maximum-key scan selects the final entry. -/
theorem maxValid_last (l : Dict Nat PyVal) (p : Nat × PyVal)
    (h : ∀ q ∈ l, q.1 < p.1) : maxValid (l ++ [p]) = some p := by
  rw [maxValid_append_single]
  cases hm : maxValid l with
  | none => rfl
  | some q =>
    have hq : q ∈ l := maxValid_mem l q hm
    simp [maxStep, if_pos (h q hq)]

/-- On strictly increasing snapshot keys, the time-travel resolution
(filter at-or-before, then select the maximum key) picks exactly the entry
at index `j` whenever that entry is at or before `t` and every later
entry is strictly after `t`. -/
theorem maxValid_filter_sorted (snaps : Dict Nat PyVal) (t : Nat)
    (hsorted : List.Pairwise (fun p q => p.1 < q.1) snaps)
    (j : Fin snaps.length)
    (hle : (snaps.get j).1 ≤ t)
    (hgt : ∀ k : Fin snaps.length, j < k → t < (snaps.get k).1) :
    maxValid (snaps.filter fun p => p.1 ≤ t) = some (snaps.get j) := by
  have hjmem : snaps.get j ∈ snaps.filter (fun p => p.1 ≤ t) :=
    List.mem_filter.mpr ⟨List.get_mem _ _ _, by simpa using hle⟩
  cases hm : maxValid (snaps.filter fun p => p.1 ≤ t) with
  | none =>
    rw [maxValid_eq_none_iff] at hm
    rw [hm] at hjmem
    cases hjmem
  | some q =>
    obtain ⟨hqs, hqt⟩ := List.mem_filter.mp (maxValid_mem _ q hm)
    have hqt : q.1 ≤ t := by simpa using hqt
    have hjq : (snaps.get j).1 ≤ q.1 := maxValid_le _ q hm _ hjmem
    obtain ⟨m, hmq⟩ := List.mem_iff_get.mp hqs
    rcases lt_trichotomy m j with hlt | heq | hgt'
    · exfalso
      have := List.pairwise_iff_get.mp hsorted m j hlt
      rw [hmq] at this
      exact absurd (lt_of_le_of_lt hjq this) (lt_irrefl _)
    · rw [heq] at hmq
      rw [hmq]
    · exfalso
      have := hgt m hgt'
      rw [hmq] at this
      exact absurd (lt_of_le_of_lt hqt this) (lt_irrefl _)

/-! ### Observable state of the lazy table initialisation -/

theorem ensureSnapshots_name (st : TemporalAttribute) (i : Nat) :
    (ensureSnapshots st i).name = st.name := by
  simp only [ensureSnapshots]; split <;> rfl

theorem ensureSnapshots_currents (st : TemporalAttribute) (i : Nat) :
    (ensureSnapshots st i).instanceCurrentValues = st.instanceCurrentValues := by
  simp only [ensureSnapshots]; split <;> rfl

theorem ensureSnapshots_flags (st : TemporalAttribute) (i : Nat) :
    (ensureSnapshots st i).instanceValueSet = st.instanceValueSet := by
  simp only [ensureSnapshots]; split <;> rfl

theorem snapshotsObs_ensureSnapshots (st : TemporalAttribute) (i j : Nat) :
    snapshotsObs (ensureSnapshots st i) j = snapshotsObs st j := by
  simp only [ensureSnapshots]
  split
  · rfl
  · rename_i h
    simp only [snapshotsObs, dictGet_insert]
    by_cases hij : i = j
    · subst hij
      rw [if_pos rfl]
      cases hg : dictGet st.instanceSnapshots i with
      | none => rfl
      | some s => rw [hg] at h; simp at h
    · rw [if_neg hij]

theorem ensureCurrent_name (st : TemporalAttribute) (i : Nat) :
    (ensureCurrent st i).name = st.name := by
  simp only [ensureCurrent]; split <;> rfl

theorem ensureCurrent_snaps (st : TemporalAttribute) (i : Nat) :
    (ensureCurrent st i).instanceSnapshots = st.instanceSnapshots := by
  simp only [ensureCurrent]; split <;> rfl

theorem ensureCurrent_flags (st : TemporalAttribute) (i : Nat) :
    (ensureCurrent st i).instanceValueSet = st.instanceValueSet := by
  simp only [ensureCurrent]; split <;> rfl

theorem currentObs_ensureCurrent (st : TemporalAttribute) (i j : Nat) :
    currentObs (ensureCurrent st i) j = currentObs st j := by
  simp only [ensureCurrent]
  split
  · rfl
  · rename_i h
    simp only [currentObs, dictGet_insert]
    by_cases hij : i = j
    · subst hij
      rw [if_pos rfl]
      cases hg : dictGet st.instanceCurrentValues i with
      | none => rfl
      | some s => rw [hg] at h; simp at h
    · rw [if_neg hij]

theorem ensureValueSet_name (st : TemporalAttribute) (i : Nat) :
    (ensureValueSet st i).name = st.name := by
  simp only [ensureValueSet]; split <;> rfl

theorem ensureValueSet_snaps (st : TemporalAttribute) (i : Nat) :
    (ensureValueSet st i).instanceSnapshots = st.instanceSnapshots := by
  simp only [ensureValueSet]; split <;> rfl

theorem ensureValueSet_currents (st : TemporalAttribute) (i : Nat) :
    (ensureValueSet st i).instanceCurrentValues = st.instanceCurrentValues := by
  simp only [ensureValueSet]; split <;> rfl

theorem valueSetObs_ensureValueSet (st : TemporalAttribute) (i j : Nat) :
    valueSetObs (ensureValueSet st i) j = valueSetObs st j := by
  simp only [ensureValueSet]
  split
  · rfl
  · rename_i h
    simp only [valueSetObs, dictGet_insert]
    by_cases hij : i = j
    · subst hij
      rw [if_pos rfl]
      cases hg : dictGet st.instanceValueSet i with
      | none => rfl
      | some s => rw [hg] at h; simp at h
    · rw [if_neg hij]

theorem ensureAll_name (st : TemporalAttribute) (i : Nat) :
    (ensureAll st i).name = st.name := by
  simp [ensureAll, ensureValueSet_name, ensureCurrent_name, ensureSnapshots_name]

theorem snapshotsObs_ensureAll (st : TemporalAttribute) (i j : Nat) :
    snapshotsObs (ensureAll st i) j = snapshotsObs st j := by
  simp only [ensureAll, snapshotsObs, ensureValueSet_snaps, ensureCurrent_snaps]
  exact snapshotsObs_ensureSnapshots st i j

theorem currentObs_ensureAll (st : TemporalAttribute) (i j : Nat) :
    currentObs (ensureAll st i) j = currentObs st j := by
  simp only [ensureAll, currentObs, ensureValueSet_currents]
  have := currentObs_ensureCurrent (ensureSnapshots st i) i j
  simp only [currentObs] at this
  rw [this, ensureSnapshots_currents]

theorem valueSetObs_ensureAll (st : TemporalAttribute) (i j : Nat) :
    valueSetObs (ensureAll st i) j = valueSetObs st j := by
  simp only [ensureAll]
  rw [valueSetObs_ensureValueSet]
  simp only [valueSetObs, ensureCurrent_flags, ensureSnapshots_flags]

theorem dictGet_snaps_ensureAll_ne (st : TemporalAttribute) (i k : Nat) (hik : i ≠ k) :
    dictGet (ensureAll st i).instanceSnapshots k = dictGet st.instanceSnapshots k := by
  simp only [ensureAll, ensureValueSet_snaps, ensureCurrent_snaps, ensureSnapshots]
  split
  · rfl
  · simp [dictGet_insert, hik]

theorem dictGet_currents_ensureAll_ne (st : TemporalAttribute) (i k : Nat) (hik : i ≠ k) :
    dictGet (ensureAll st i).instanceCurrentValues k = dictGet st.instanceCurrentValues k := by
  simp only [ensureAll, ensureValueSet_currents, ensureCurrent, ensureSnapshots_currents]
  split
  · rw [ensureSnapshots_currents]
  · simp [dictGet_insert, hik]

theorem dictGet_flags_ensureAll_ne (st : TemporalAttribute) (i k : Nat) (hik : i ≠ k) :
    dictGet (ensureAll st i).instanceValueSet k = dictGet st.instanceValueSet k := by
  simp only [ensureAll, ensureValueSet, ensureCurrent_flags, ensureSnapshots_flags]
  split
  · rw [ensureCurrent_flags, ensureSnapshots_flags]
  · simp [dictGet_insert, hik]

theorem ensureSnapshots_eq_self (st : TemporalAttribute) (i : Nat)
    (h : (dictGet st.instanceSnapshots i).isSome) : ensureSnapshots st i = st := by
  simp [ensureSnapshots, h]

theorem ensureCurrent_eq_self (st : TemporalAttribute) (i : Nat)
    (h : (dictGet st.instanceCurrentValues i).isSome) : ensureCurrent st i = st := by
  simp [ensureCurrent, h]

theorem ensureValueSet_eq_self (st : TemporalAttribute) (i : Nat)
    (h : (dictGet st.instanceValueSet i).isSome) : ensureValueSet st i = st := by
  simp [ensureValueSet, h]

theorem ensureAll_eq_self (st : TemporalAttribute) (i : Nat) (hr : readyInv st i) :
    ensureAll st i = st := by
  obtain ⟨h1, h2, h3⟩ := hr
  rw [ensureAll, ensureSnapshots_eq_self st i h1, ensureCurrent_eq_self st i h2,
    ensureValueSet_eq_self st i (by simp [h3])]

/-! ### Specification of `_set_snapshot_for_instance` -/

theorem setSnap_ret (st : TemporalAttribute) (h : Heap) (i : Nat) (v : PyVal) (ts : Nat) :
    (setSnapshotForInstance st h i v ts).1 = PyVal.pynone := rfl

theorem setSnap_heap (st : TemporalAttribute) (h : Heap) (i : Nat) (v : PyVal) (ts : Nat) :
    (setSnapshotForInstance st h i v ts).2.2 = (deepcopy h v).2 := rfl

theorem setSnap_name (st : TemporalAttribute) (h : Heap) (i : Nat) (v : PyVal) (ts : Nat) :
    (setSnapshotForInstance st h i v ts).2.1.name = st.name := by
  simp only [setSnapshotForInstance]
  exact ensureAll_name st i

theorem snapshotsObs_setSnap (st : TemporalAttribute) (h : Heap) (i : Nat) (v : PyVal)
    (ts : Nat) (j : Nat) :
    snapshotsObs (setSnapshotForInstance st h i v ts).2.1 j =
      if i = j then dictInsert (snapshotsObs st i) ts (deepcopy h v).1
      else snapshotsObs st j := by
  have hsn : (dictGet (ensureAll st i).instanceSnapshots i).getD [] = snapshotsObs st i := by
    have := snapshotsObs_ensureAll st i i
    simpa [snapshotsObs] using this
  by_cases hij : i = j
  · subst hij
    simp [setSnapshotForInstance, snapshotsObs, dictGet_insert, hsn]
  · simp only [setSnapshotForInstance, snapshotsObs, dictGet_insert, if_neg hij]
    rw [dictGet_snaps_ensureAll_ne st i j hij]

theorem currentObs_setSnap (st : TemporalAttribute) (h : Heap) (i : Nat) (v : PyVal)
    (ts : Nat) (j : Nat) :
    currentObs (setSnapshotForInstance st h i v ts).2.1 j =
      if i = j then v else currentObs st j := by
  by_cases hij : i = j
  · subst hij
    simp [setSnapshotForInstance, currentObs, dictGet_insert]
  · simp only [setSnapshotForInstance, currentObs, dictGet_insert, if_neg hij]
    rw [dictGet_currents_ensureAll_ne st i j hij]

theorem valueSetObs_setSnap (st : TemporalAttribute) (h : Heap) (i : Nat) (v : PyVal)
    (ts : Nat) (j : Nat) :
    valueSetObs (setSnapshotForInstance st h i v ts).2.1 j =
      if i = j then true else valueSetObs st j := by
  by_cases hij : i = j
  · subst hij
    simp [setSnapshotForInstance, valueSetObs, dictGet_insert]
  · simp only [setSnapshotForInstance, valueSetObs, dictGet_insert, if_neg hij]
    rw [dictGet_flags_ensureAll_ne st i j hij]

theorem readyInv_setSnap (st : TemporalAttribute) (h : Heap) (i : Nat) (v : PyVal)
    (ts : Nat) (k : Nat) (hk : i = k ∨ readyInv st k) :
    readyInv (setSnapshotForInstance st h i v ts).2.1 k := by
  cases hk with
  | inl hik =>
    subst hik
    refine ⟨?_, ?_, ?_⟩
    · simp [setSnapshotForInstance, dictGet_insert]
    · simp [setSnapshotForInstance, dictGet_insert]
    · simp [setSnapshotForInstance, dictGet_insert]
  | inr hr =>
    by_cases hik : i = k
    · subst hik
      refine ⟨?_, ?_, ?_⟩
      · simp [setSnapshotForInstance, dictGet_insert]
      · simp [setSnapshotForInstance, dictGet_insert]
      · simp [setSnapshotForInstance, dictGet_insert]
    · obtain ⟨h1, h2, h3⟩ := hr
      refine ⟨?_, ?_, ?_⟩
      · simp only [setSnapshotForInstance, dictGet_insert, if_neg hik]
        rw [dictGet_snaps_ensureAll_ne st i k hik]
        exact h1
      · simp only [setSnapshotForInstance, dictGet_insert, if_neg hik]
        rw [dictGet_currents_ensureAll_ne st i k hik]
        exact h2
      · simp only [setSnapshotForInstance, dictGet_insert, if_neg hik]
        rw [dictGet_flags_ensureAll_ne st i k hik]
        exact h3

theorem dictGet_snaps_ensureSnapshots_ne (st : TemporalAttribute) (i k : Nat) (hik : i ≠ k) :
    dictGet (ensureSnapshots st i).instanceSnapshots k = dictGet st.instanceSnapshots k := by
  simp only [ensureSnapshots]
  split
  · rfl
  · simp [dictGet_insert, hik]

theorem dictGet_currents_ensureCurrent_ne (st : TemporalAttribute) (i k : Nat) (hik : i ≠ k) :
    dictGet (ensureCurrent st i).instanceCurrentValues k = dictGet st.instanceCurrentValues k := by
  simp only [ensureCurrent]
  split
  · rfl
  · simp [dictGet_insert, hik]

theorem dictGet_flags_ensureValueSet_ne (st : TemporalAttribute) (i k : Nat) (hik : i ≠ k) :
    dictGet (ensureValueSet st i).instanceValueSet k = dictGet st.instanceValueSet k := by
  simp only [ensureValueSet]
  split
  · rfl
  · simp [dictGet_insert, hik]

theorem dictGet_snaps_ensureSnapshots_self (st : TemporalAttribute) (i : Nat) :
    (dictGet (ensureSnapshots st i).instanceSnapshots i).isSome := by
  simp only [ensureSnapshots]
  split
  · assumption
  · simp [dictGet_insert]

theorem dictGet_currents_ensureCurrent_self (st : TemporalAttribute) (i : Nat) :
    (dictGet (ensureCurrent st i).instanceCurrentValues i).isSome := by
  simp only [ensureCurrent]
  split
  · assumption
  · simp [dictGet_insert]

theorem dictGet_flags_ensureValueSet_self (st : TemporalAttribute) (i : Nat) :
    (dictGet (ensureValueSet st i).instanceValueSet i).isSome := by
  simp only [ensureValueSet]
  split
  · assumption
  · simp [dictGet_insert]

theorem ensureAll_present (st : TemporalAttribute) (i : Nat) :
    (dictGet (ensureAll st i).instanceSnapshots i).isSome ∧
    (dictGet (ensureAll st i).instanceCurrentValues i).isSome ∧
    (dictGet (ensureAll st i).instanceValueSet i).isSome := by
  refine ⟨?_, ?_, ?_⟩
  · simp only [ensureAll, ensureValueSet_snaps, ensureCurrent_snaps]
    exact dictGet_snaps_ensureSnapshots_self st i
  · simp only [ensureAll, ensureValueSet_currents]
    exact dictGet_currents_ensureCurrent_self (ensureSnapshots st i) i
  · exact dictGet_flags_ensureValueSet_self (ensureCurrent (ensureSnapshots st i) i) i

theorem readyInv_ensureAll (st : TemporalAttribute) (i k : Nat) (hk : readyInv st k) :
    readyInv (ensureAll st i) k := by
  by_cases hik : i = k
  · subst hik
    rw [ensureAll_eq_self st i hk]
    exact hk
  · obtain ⟨h1, h2, h3⟩ := hk
    exact ⟨by rw [dictGet_snaps_ensureAll_ne st i k hik]; exact h1,
      by rw [dictGet_currents_ensureAll_ne st i k hik]; exact h2,
      by rw [dictGet_flags_ensureAll_ne st i k hik]; exact h3⟩

/-! ### Specification of `__set__` -/

theorem setStep_name (st : TemporalAttribute) (i : Nat) (v : PyVal) :
    (setStep st i v).name = st.name := by
  simp [setStep, ensureSnapshots_name, ensureValueSet_name, ensureCurrent_name]

theorem snapshotsObs_setStep (st : TemporalAttribute) (i : Nat) (v : PyVal) (j : Nat) :
    snapshotsObs (setStep st i v) j = snapshotsObs st j := by
  simp only [setStep, snapshotsObs]
  have h1 := snapshotsObs_ensureSnapshots (ensureValueSet (ensureCurrent st i) i) i j
  simp only [snapshotsObs] at h1
  rw [h1, ensureValueSet_snaps, ensureCurrent_snaps]

theorem currentObs_setStep (st : TemporalAttribute) (i : Nat) (v : PyVal) (j : Nat) :
    currentObs (setStep st i v) j = if i = j then v else currentObs st j := by
  by_cases hij : i = j
  · subst hij
    simp [setStep, currentObs, dictGet_insert]
  · simp only [setStep, currentObs, dictGet_insert, if_neg hij,
      ensureSnapshots_currents, ensureValueSet_currents]
    rw [dictGet_currents_ensureCurrent_ne st i j hij]

theorem valueSetObs_setStep (st : TemporalAttribute) (i : Nat) (v : PyVal) (j : Nat) :
    valueSetObs (setStep st i v) j = if i = j then true else valueSetObs st j := by
  by_cases hij : i = j
  · subst hij
    simp [setStep, valueSetObs, dictGet_insert]
  · simp only [setStep, valueSetObs, dictGet_insert, if_neg hij, ensureSnapshots_flags]
    rw [dictGet_flags_ensureValueSet_ne (ensureCurrent st i) i j hij, ensureCurrent_flags]

theorem readyInv_setStep (st : TemporalAttribute) (i : Nat) (v : PyVal) (k : Nat)
    (hk : i = k ∨ readyInv st k) : readyInv (setStep st i v) k := by
  by_cases hik : i = k
  · subst hik
    refine ⟨?_, by simp [setStep, dictGet_insert], by simp [setStep, dictGet_insert]⟩
    simp only [setStep]
    exact dictGet_snaps_ensureSnapshots_self _ i
  · obtain ⟨h1, h2, h3⟩ := hk.resolve_left hik
    refine ⟨?_, ?_, ?_⟩
    · simp only [setStep]
      rw [dictGet_snaps_ensureSnapshots_ne _ i k hik, ensureValueSet_snaps,
        ensureCurrent_snaps]
      exact h1
    · simp only [setStep, dictGet_insert, if_neg hik, ensureSnapshots_currents,
        ensureValueSet_currents]
      rw [dictGet_currents_ensureCurrent_ne st i k hik]
      exact h2
    · simp only [setStep, dictGet_insert, if_neg hik, ensureSnapshots_flags]
      rw [dictGet_flags_ensureValueSet_ne (ensureCurrent st i) i k hik, ensureCurrent_flags]
      exact h3

/-! ### Specification of `__get__` -/

theorem getStep_asOf (st : TemporalAttribute) (h : Heap) (f : Nat → PyVal) (i t now : Nat) :
    getStep st h f i (some t) now =
      ((match maxValid ((snapshotsObs st i).filter fun p => p.1 ≤ t) with
        | none => Except.error (.noSnapshot st.name t)
        | some p => Except.ok (.historical p.2)),
       ensureAll st i, h, false) := by
  have hsn : (dictGet (ensureAll st i).instanceSnapshots i).getD [] = snapshotsObs st i := by
    have := snapshotsObs_ensureAll st i i
    simpa [snapshotsObs] using this
  simp only [getStep, hsn, ensureAll_name]
  rcases hmx : maxValid ((snapshotsObs st i).filter fun p => p.1 ≤ t) with _ | p <;>
    simp [hmx]

theorem getStep_normal_ready (st : TemporalAttribute) (h : Heap) (f : Nat → PyVal)
    (i now : Nat) (hr : readyInv st i) :
    getStep st h f i none now =
      (.ok (.temporalValue (currentObs st i) i), st, h, false) := by
  obtain ⟨h1, h2, h3⟩ := hr
  simp only [getStep, ensureAll_eq_self st i ⟨h1, h2, h3⟩, h3, Option.getD_some]
  simp [currentObs]

theorem getStep_normal_fresh (st : TemporalAttribute) (h : Heap) (f : Nat → PyVal)
    (i now : Nat) (hv : valueSetObs st i = false) :
    getStep st h f i none now =
      (.ok (.temporalValue (f i) i),
       (setSnapshotForInstance (ensureAll st i) h i (f i) now).2.1,
       (deepcopy h (f i)).2, true) := by
  have hflag : (dictGet (ensureAll st i).instanceValueSet i).getD false = false := by
    have := valueSetObs_ensureAll st i i
    simp only [valueSetObs] at this
    rw [this]
    exact hv
  have hcur : (dictGet (setSnapshotForInstance (ensureAll st i) h i (f i) now).2.1.instanceCurrentValues i).getD .pynone = f i := by
    have := currentObs_setSnap (ensureAll st i) h i (f i) now i
    simp only [currentObs, if_pos rfl] at this
    exact this
  simp only [getStep, hflag, hcur, setSnap_heap]
  simp

theorem getStep_name (st : TemporalAttribute) (h : Heap) (f : Nat → PyVal) (i : Nat)
    (asOf : Option Nat) (now : Nat) : (getStep st h f i asOf now).2.1.name = st.name := by
  cases asOf with
  | some t =>
    simp only [getStep]
    split <;> simp [ensureAll_name]
  | none =>
    simp only [getStep]
    split
    · simp [setSnap_name, ensureAll_name]
    · simp [ensureAll_name]

theorem readyInv_getStep (st : TemporalAttribute) (h : Heap) (f : Nat → PyVal) (i : Nat)
    (asOf : Option Nat) (now k : Nat) (hk : readyInv st k) :
    readyInv (getStep st h f i asOf now).2.1 k := by
  cases asOf with
  | some t =>
    simp only [getStep]
    split <;> exact readyInv_ensureAll st i k hk
  | none =>
    simp only [getStep]
    split
    · exact readyInv_setSnap _ h i (f i) now k (Or.inr (readyInv_ensureAll st i k hk))
    · exact readyInv_ensureAll st i k hk

theorem readyInv_runOp (f : Nat → PyVal) (s : TemporalAttribute × Heap) (op : Op) (k : Nat)
    (hk : readyInv s.1 k) : readyInv (runOp f s op).1 k := by
  obtain ⟨st, h⟩ := s
  cases op with
  | readNormal i ts => exact readyInv_getStep st h f i none ts k hk
  | readAsOf i t => exact readyInv_getStep st h f i (some t) 0 k hk
  | assign i v => exact readyInv_setStep st i v k (Or.inr hk)
  | snap i v ts => exact readyInv_setSnap st h i v ts k (Or.inr hk)

theorem readyInv_runOps (f : Nat → PyVal) (s : TemporalAttribute × Heap) (ops : List Op)
    (k : Nat) (hk : readyInv s.1 k) : readyInv (runOps f s ops).1 k := by
  induction ops generalizing s with
  | nil => exact hk
  | cons op rest ih =>
    simp only [runOps, List.foldl_cons]
    exact ih (runOp f s op) (readyInv_runOp f s op k hk)

theorem runOp_name (f : Nat → PyVal) (s : TemporalAttribute × Heap) (op : Op) :
    (runOp f s op).1.name = s.1.name := by
  obtain ⟨st, h⟩ := s
  cases op with
  | readNormal i ts => exact getStep_name st h f i none ts
  | readAsOf i t => exact getStep_name st h f i (some t) 0
  | assign i v => exact setStep_name st i v
  | snap i v ts => exact setSnap_name st h i v ts

theorem runOps_name (f : Nat → PyVal) (s : TemporalAttribute × Heap) (ops : List Op) :
    (runOps f s ops).1.name = s.1.name := by
  induction ops generalizing s with
  | nil => rfl
  | cons op rest ih =>
    simp only [runOps, List.foldl_cons]
    have h1 := ih (runOp f s op)
    simp only [runOps] at h1
    rw [h1, runOp_name]

/-! ### Heap lemmas -/

theorem dictGet_mem {α β : Type} [DecidableEq α] (d : Dict α β) (k : α) (v : β)
    (h : dictGet d k = some v) : (k, v) ∈ d := by
  induction d with
  | nil => cases h
  | cons p rest ih =>
    obtain ⟨x, y⟩ := p
    simp only [dictGet] at h
    by_cases hxk : x = k
    · rw [if_pos hxk] at h
      injection h with h
      subst hxk
      subst h
      exact List.mem_cons_self _ _
    · rw [if_neg hxk] at h
      exact List.mem_cons_of_mem _ (ih h)

theorem addr_lt_next (h : Heap) (a : Nat) (o : HeapObj) (hwf : heapWF h)
    (ha : dictGet h.mem a = some o) : a < h.next :=
  hwf (a, o) (dictGet_mem h.mem a o ha)

theorem deepcopy_copyable (h : Heap) (a : Nat) (o : HeapObj)
    (ha : dictGet h.mem a = some o)
    (hdc : o.deepCopyable = true ∨ o.hasCopyMethod = true) :
    deepcopy h (.ref a) = (.ref h.next, ⟨dictInsert h.mem h.next o, h.next + 1⟩) := by
  rcases hdc with hdc | hdc
  · simp [deepcopy, ha, hdc]
  · by_cases hd : o.deepCopyable <;> simp [deepcopy, ha, hd, hdc]

theorem observe_ref (h : Heap) (a : Nat) (o : HeapObj) (ha : dictGet h.mem a = some o) :
    observe h (.ref a) = .oobj o.fields := by
  simp [observe, ha]

theorem observe_mutate_ne (h : Heap) (a b : Nat) (fs : List Int) (hab : a ≠ b) :
    observe (mutateObj h a fs) (.ref b) = observe h (.ref b) := by
  simp only [mutateObj]
  cases hg : dictGet h.mem a with
  | none => rfl
  | some o => simp [observe, dictGet_insert, hab]

theorem observe_mutate_self (h : Heap) (a : Nat) (o : HeapObj) (fs : List Int)
    (ha : dictGet h.mem a = some o) :
    observe (mutateObj h a fs) (.ref a) = .oobj fs := by
  simp [mutateObj, ha, observe, dictGet_insert]

/-! ### Reads and writes that keep a history blank -/

theorem getStep_obs_other (st : TemporalAttribute) (h : Heap) (f : Nat → PyVal)
    (j : Nat) (asOf : Option Nat) (now k : Nat) (hjk : j ≠ k) :
    snapshotsObs (getStep st h f j asOf now).2.1 k = snapshotsObs st k ∧
    currentObs (getStep st h f j asOf now).2.1 k = currentObs st k ∧
    valueSetObs (getStep st h f j asOf now).2.1 k = valueSetObs st k := by
  cases asOf with
  | some t =>
    rw [getStep_asOf]
    rcases hmx : maxValid ((snapshotsObs st j).filter fun p => p.1 ≤ t) with _ | p <;>
      simp [hmx, snapshotsObs_ensureAll, currentObs_ensureAll, valueSetObs_ensureAll]
  | none =>
    simp only [getStep]
    split
    · refine ⟨?_, ?_, ?_⟩
      · rw [show ((Except.ok (GetResult.temporalValue ((dictGet (setSnapshotForInstance (ensureAll st j) h j (f j) now).2.1.instanceCurrentValues j).getD .pynone) j) : Except TemporalError GetResult), (setSnapshotForInstance (ensureAll st j) h j (f j) now).2.1, (setSnapshotForInstance (ensureAll st j) h j (f j) now).2.2, true).2.1 = (setSnapshotForInstance (ensureAll st j) h j (f j) now).2.1 from rfl]
        rw [snapshotsObs_setSnap, if_neg hjk, snapshotsObs_ensureAll]
      · rw [show ((Except.ok (GetResult.temporalValue ((dictGet (setSnapshotForInstance (ensureAll st j) h j (f j) now).2.1.instanceCurrentValues j).getD .pynone) j) : Except TemporalError GetResult), (setSnapshotForInstance (ensureAll st j) h j (f j) now).2.1, (setSnapshotForInstance (ensureAll st j) h j (f j) now).2.2, true).2.1 = (setSnapshotForInstance (ensureAll st j) h j (f j) now).2.1 from rfl]
        rw [currentObs_setSnap, if_neg hjk, currentObs_ensureAll]
      · rw [show ((Except.ok (GetResult.temporalValue ((dictGet (setSnapshotForInstance (ensureAll st j) h j (f j) now).2.1.instanceCurrentValues j).getD .pynone) j) : Except TemporalError GetResult), (setSnapshotForInstance (ensureAll st j) h j (f j) now).2.1, (setSnapshotForInstance (ensureAll st j) h j (f j) now).2.2, true).2.1 = (setSnapshotForInstance (ensureAll st j) h j (f j) now).2.1 from rfl]
        rw [valueSetObs_setSnap, if_neg hjk, valueSetObs_ensureAll]
    · exact ⟨snapshotsObs_ensureAll st j k, currentObs_ensureAll st j k,
        valueSetObs_ensureAll st j k⟩

theorem lastAssigned_cons (i : Nat) (op : Op) (ops : List Op) (d : PyVal) :
    lastAssigned i (op :: ops) d = lastAssigned i ops (assignUpdate i op d) := rfl

theorem runOp_blankInv (f : Nat → PyVal) (st : TemporalAttribute) (h : Heap) (i : Nat)
    (op : Op) (hop : keepsHistoryBlank i op = true)
    (hr : readyInv st i) (hs : snapshotsObs st i = []) :
    readyInv (runOp f (st, h) op).1 i ∧
    snapshotsObs (runOp f (st, h) op).1 i = [] ∧
    currentObs (runOp f (st, h) op).1 i = assignUpdate i op (currentObs st i) := by
  cases op with
  | readNormal j ts =>
    by_cases hji : j = i
    · subst hji
      simp only [runOp, getStep_normal_ready st h f j ts hr]
      exact ⟨hr, hs, by simp [assignUpdate]⟩
    · obtain ⟨o1, o2, _⟩ := getStep_obs_other st h f j none ts i hji
      exact ⟨readyInv_getStep st h f j none ts i hr, by rw [runOp, o1]; exact hs,
        by rw [runOp, o2]; rfl⟩
  | readAsOf j t =>
    obtain ⟨o1, o2, _⟩ :=
      (by
        rw [getStep_asOf]
        rcases hmx : maxValid ((snapshotsObs st j).filter fun p => p.1 ≤ t) with _ | p <;>
          simp [hmx, snapshotsObs_ensureAll, currentObs_ensureAll, valueSetObs_ensureAll] :
        snapshotsObs (getStep st h f j (some t) 0).2.1 i = snapshotsObs st i ∧
        currentObs (getStep st h f j (some t) 0).2.1 i = currentObs st i ∧
        valueSetObs (getStep st h f j (some t) 0).2.1 i = valueSetObs st i)
    exact ⟨readyInv_getStep st h f j (some t) 0 i hr, by rw [runOp, o1]; exact hs,
      by rw [runOp, o2]; rfl⟩
  | assign j w =>
    refine ⟨readyInv_setStep st j w i (Or.inr hr), ?_, ?_⟩
    · rw [runOp, snapshotsObs_setStep]
      exact hs
    · rw [runOp, currentObs_setStep]
      simp only [assignUpdate]
  | snap j v ts =>
    have hji : j ≠ i := by
      simpa [keepsHistoryBlank] using hop
    refine ⟨readyInv_setSnap st h j v ts i (Or.inr hr), ?_, ?_⟩
    · rw [runOp, snapshotsObs_setSnap, if_neg hji]
      exact hs
    · rw [runOp, currentObs_setSnap, if_neg hji]
      rfl

theorem runOps_blankInv (f : Nat → PyVal) (i : Nat) (ops : List Op) :
    ∀ (st : TemporalAttribute) (h : Heap),
      (∀ op ∈ ops, keepsHistoryBlank i op = true) → readyInv st i →
      snapshotsObs st i = [] →
      readyInv (runOps f (st, h) ops).1 i ∧
      snapshotsObs (runOps f (st, h) ops).1 i = [] ∧
      currentObs (runOps f (st, h) ops).1 i = lastAssigned i ops (currentObs st i) := by
  induction ops with
  | nil => exact fun st h _ hr hs => ⟨hr, hs, rfl⟩
  | cons op rest ih =>
    intro st h hops hr hs
    have hop : keepsHistoryBlank i op = true := hops op (List.mem_cons_self _ _)
    obtain ⟨hr1, hs1, hc1⟩ := runOp_blankInv f st h i op hop hr hs
    have hrest : ∀ o ∈ rest, keepsHistoryBlank i o = true :=
      fun o ho => hops o (List.mem_cons_of_mem _ ho)
    have step : runOps f (st, h) (op :: rest) = runOps f (runOp f (st, h) op) rest := rfl
    rw [step, lastAssigned_cons]
    obtain ⟨hr2, hs2, hc2⟩ :=
      ih (runOp f (st, h) op).1 (runOp f (st, h) op).2 hrest hr1 hs1
    refine ⟨?_, ?_, ?_⟩
    · simpa using hr2
    · simpa using hs2
    · rw [show ((runOp f (st, h) op).1, (runOp f (st, h) op).2) = runOp f (st, h) op from rfl] at hc2
      rw [hc2, hc1]

/-! ### Claim theorems -/

/-- C4: For any nesting of `withViewpoint` (context) scopes, the viewpoint
observed immediately after each scope exit equals the viewpoint observed
immediately before that scope's entry, including when the scope body
raises an exception and including restoring the value `none`. -/
theorem withViewpoint_scope_restores (p : Prog) (s : Option Nat) :
    (∀ pr ∈ (runProg p s).2.2, pr.1 = pr.2) ∧
    (∀ (t : Option Nat) (body : Prog), (runProg (Prog.withVp t body) s).1 = s) := by
  constructor
  · induction p generalizing s with
    | skip => intro pr hpr; simp [runProg] at hpr
    | raise => intro pr hpr; simp [runProg] at hpr
    | setRaw t => intro pr hpr; simp [runProg] at hpr
    | seq p q ihp ihq =>
      intro pr hpr
      simp only [runProg] at hpr
      rcases hp : runProg p s with ⟨s1, e1, l1⟩
      rw [hp] at hpr
      cases e1 with
      | true =>
        have hpr1 : pr ∈ l1 := hpr
        exact ihp s pr (by rw [hp]; exact hpr1)
      | false =>
        have hpr1 : pr ∈ l1 ++ (runProg q s1).2.2 := hpr
        rcases List.mem_append.mp hpr1 with hm | hm
        · exact ihp s pr (by rw [hp]; exact hm)
        · exact ihq s1 pr hm
    | withVp t body ihb =>
      intro pr hpr
      simp only [runProg] at hpr
      rcases hb : runProg body t with ⟨s1, e, l⟩
      rw [hb] at hpr
      have hpr1 : pr ∈ l ++ [(s, s)] := hpr
      rcases List.mem_append.mp hpr1 with hm | hm
      · exact ihb t pr (by rw [hb]; exact hm)
      · simp only [List.mem_singleton] at hm
        rw [hm]
  · intro t body
    simp only [runProg]

/-- Witness for C4: a nested scope structure whose inner body raises, with
an explicit raw overwrite of the viewpoint; the outer scope still restores
the original `none`, and every recorded scope-exit pair matches its
entry. -/
theorem withViewpoint_scope_restores_witness :
    (runProg (Prog.withVp (some 3)
        (Prog.seq (Prog.withVp none Prog.raise) (Prog.setRaw (some 9)))) none).1 = none :=
  (withViewpoint_scope_restores Prog.skip none).2 (some 3)
    (Prog.seq (Prog.withVp none Prog.raise) (Prog.setRaw (some 9)))

/-- C10: A read performed while a viewpoint is active never invokes the
initial-value factory and never changes the field's observable state: the
snapshot history, current value, and has-been-set flag of every
(instance, field) are identical before and after the read, the heap is
untouched, whether the read returns a historical value or fails. -/
theorem asOf_read_leaves_state_unchanged (st : TemporalAttribute) (h : Heap)
    (f : Nat → PyVal) (i t now : Nat) :
    (getStep st h f i (some t) now).2.2.2 = false ∧
    (getStep st h f i (some t) now).2.2.1 = h ∧
    ∀ j, snapshotsObs (getStep st h f i (some t) now).2.1 j = snapshotsObs st j ∧
      currentObs (getStep st h f i (some t) now).2.1 j = currentObs st j ∧
      valueSetObs (getStep st h f i (some t) now).2.1 j = valueSetObs st j := by
  rw [getStep_asOf]
  exact ⟨rfl, rfl, fun j =>
    ⟨snapshotsObs_ensureAll st i j, currentObs_ensureAll st i j, valueSetObs_ensureAll st i j⟩⟩

/-- C8: A plain assignment to a temporal field (`__set__`) sets the
field's current value and marks it as set, and leaves every snapshot
history exactly as it was. -/
theorem assign_updates_current_not_history (st : TemporalAttribute) (i : Nat) (v : PyVal) :
    currentObs (setStep st i v) i = v ∧
    valueSetObs (setStep st i v) i = true ∧
    (∀ j, snapshotsObs (setStep st i v) j = snapshotsObs st j) ∧
    (setStep st i v).name = st.name := by
  refine ⟨?_, ?_, fun j => snapshotsObs_setStep st i v j, setStep_name st i v⟩
  · rw [currentObs_setStep]
    simp
  · rw [valueSetObs_setStep]
    simp

/-- C5 (amended): recording a snapshot stores the copied value in the
history under the wall-clock timestamp taken during the call, but the
operation returns `None` — not the timestamp; `set_snapshot` without an
instance raises `RuntimeError`. -/
theorem snapshot_returns_none_not_timestamp (st : TemporalAttribute) (h : Heap)
    (v : PyVal) (i ts : Nat) :
    (setSnapshotForInstance st h i v ts).1 = PyVal.pynone ∧
    dictGet (snapshotsObs (setSnapshotForInstance st h i v ts).2.1 i) ts =
      some (deepcopy h v).1 ∧
    setSnapshot st h v (some i) ts = .ok (setSnapshotForInstance st h i v ts) ∧
    setSnapshot st h v none ts = .error .missingInstance := by
  refine ⟨setSnap_ret st h i v ts, ?_, rfl, rfl⟩
  rw [snapshotsObs_setSnap, if_pos rfl, dictGet_insert, if_pos rfl]

/-- Counterexample for C5: at a concrete input the value returned by
`set_snapshot` is `None`, which is not the timestamp (`5`) under which the
snapshot was inserted. -/
theorem snapshot_return_value_counterexample :
    (setSnapshot (emptyAttr "r") emptyHeap (.pyint 7) (some 0) 5).toOption.map Prod.fst =
      some PyVal.pynone ∧ PyVal.pynone ≠ PyVal.tstamp 5 := by
  exact ⟨rfl, by decide⟩

/-- C6: A read under an active viewpoint fails precisely when no snapshot
for that (instance, field) exists at or before the viewpoint, and the only
error it can raise carries the field name and the requested timestamp. -/
theorem asOf_read_fails_iff_no_snapshot (st : TemporalAttribute) (h : Heap)
    (f : Nat → PyVal) (i t now : Nat) :
    ((getStep st h f i (some t) now).1 = .error (.noSnapshot st.name t) ↔
      ∀ p ∈ snapshotsObs st i, t < p.1) ∧
    (∀ e, (getStep st h f i (some t) now).1 = .error e → e = .noSnapshot st.name t) := by
  rw [getStep_asOf]
  rcases hmx : maxValid ((snapshotsObs st i).filter fun p => p.1 ≤ t) with _ | p
  · rw [maxValid_eq_none_iff] at hmx
    constructor
    · simp only [true_iff]
      intro q hq
      by_contra hnot
      have hqf : q ∈ (snapshotsObs st i).filter fun p => p.1 ≤ t :=
        List.mem_filter.mpr ⟨hq, by simpa using Nat.le_of_not_lt hnot⟩
      rw [hmx] at hqf
      cases hqf
    · intro e he
      simp only at he
      injection he with he
      rw [← he]
  · constructor
    · simp only
      constructor
      · intro he
        cases he
      · intro hall
        exfalso
        have hpf := maxValid_mem _ p hmx
        obtain ⟨hps, hpt⟩ := List.mem_filter.mp hpf
        exact absurd (hall p hps) (Nat.not_lt.mpr (by simpa using hpt))
    · intro e he
      simp only at he
      cases he

/-- Witness for C6: on a concrete one-snapshot history, a read at
viewpoint 0 (before the snapshot at timestamp 5) raises
`NoSnapshotError` carrying the field name and the requested timestamp. -/
theorem asOf_read_fails_iff_no_snapshot_witness :
    (getStep ⟨"r", [(0, [(5, PyVal.pystr "A")])], [(0, PyVal.pystr "A")], [(0, true)]⟩
        emptyHeap initialValueFunc 0 (some 0) 0).1 =
      .error (.noSnapshot "r" 0) :=
  (asOf_read_fails_iff_no_snapshot
    ⟨"r", [(0, [(5, PyVal.pystr "A")])], [(0, PyVal.pystr "A")], [(0, true)]⟩
    emptyHeap initialValueFunc 0 0 0).1.mpr (by decide)

/-- C1: For a history with strictly increasing timestamps, a read under an
active viewpoint `t` returns the value at index `j` whenever its timestamp
is at or before `t` and every later snapshot is strictly after `t` (which
covers both `t` in `[tj, tj+1)` and `t ≥ tn`, and makes a viewpoint equal
to a snapshot timestamp return that snapshot), and fails with
`NoSnapshotError` when `t` precedes every snapshot. -/
theorem asOf_read_monotonic_resolution (st : TemporalAttribute) (h : Heap)
    (f : Nat → PyVal) (i t now : Nat)
    (hsorted : List.Pairwise (fun p q : Nat × PyVal => p.1 < q.1) (snapshotsObs st i)) :
    ((∀ p ∈ snapshotsObs st i, t < p.1) →
      (getStep st h f i (some t) now).1 = .error (.noSnapshot st.name t)) ∧
    (∀ j : Fin (snapshotsObs st i).length,
      ((snapshotsObs st i).get j).1 ≤ t →
      (∀ k : Fin (snapshotsObs st i).length, j < k → t < ((snapshotsObs st i).get k).1) →
      (getStep st h f i (some t) now).1 =
        .ok (.historical ((snapshotsObs st i).get j).2)) := by
  constructor
  · intro hall
    rw [getStep_asOf]
    have hfil : (snapshotsObs st i).filter (fun p => p.1 ≤ t) = [] := by
      rw [List.filter_eq_nil_iff]
      intro a ha
      simpa using Nat.not_le.mpr (hall a ha)
    rw [hfil]
    rfl
  · intro j hle hgt
    rw [getStep_asOf]
    rw [maxValid_filter_sorted (snapshotsObs st i) t hsorted j hle hgt]

/-- Witness for C1: on the two-snapshot history
`[(1, "A"), (3, "B")]`, a read at viewpoint 3 (equal to the second
snapshot's timestamp) returns "B", a read at viewpoint 2 returns "A", and
a read at viewpoint 0 fails. -/
theorem asOf_read_monotonic_resolution_witness :
    (getStep ⟨"r", [(0, [(1, PyVal.pystr "A"), (3, PyVal.pystr "B")])],
        [(0, PyVal.pystr "B")], [(0, true)]⟩ emptyHeap initialValueFunc 0 (some 3) 0).1 =
      .ok (.historical (PyVal.pystr "B")) ∧
    (getStep ⟨"r", [(0, [(1, PyVal.pystr "A"), (3, PyVal.pystr "B")])],
        [(0, PyVal.pystr "B")], [(0, true)]⟩ emptyHeap initialValueFunc 0 (some 2) 0).1 =
      .ok (.historical (PyVal.pystr "A")) ∧
    (getStep ⟨"r", [(0, [(1, PyVal.pystr "A"), (3, PyVal.pystr "B")])],
        [(0, PyVal.pystr "B")], [(0, true)]⟩ emptyHeap initialValueFunc 0 (some 0) 0).1 =
      .error (.noSnapshot "r" 0) :=
  ⟨(asOf_read_monotonic_resolution
      ⟨"r", [(0, [(1, PyVal.pystr "A"), (3, PyVal.pystr "B")])],
        [(0, PyVal.pystr "B")], [(0, true)]⟩ emptyHeap initialValueFunc 0 3 0
      (by decide)).2 ⟨1, by decide⟩ (by decide) (by decide),
   (asOf_read_monotonic_resolution
      ⟨"r", [(0, [(1, PyVal.pystr "A"), (3, PyVal.pystr "B")])],
        [(0, PyVal.pystr "B")], [(0, true)]⟩ emptyHeap initialValueFunc 0 2 0
      (by decide)).2 ⟨0, by decide⟩ (by decide) (by decide),
   (asOf_read_monotonic_resolution
      ⟨"r", [(0, [(1, PyVal.pystr "A"), (3, PyVal.pystr "B")])],
        [(0, PyVal.pystr "B")], [(0, true)]⟩ emptyHeap initialValueFunc 0 0 0
      (by decide)).1 (by decide)⟩

/-- C7: If two snapshots are recorded under the same timestamp for one
(instance, field), a read at a viewpoint at or after that timestamp
returns the later-inserted snapshot's value (its stored copy): the second
insert replaces the first, exactly as a Python dict assignment under an
existing key does. -/
theorem same_timestamp_snapshot_tiebreak (st : TemporalAttribute) (h : Heap)
    (f : Nat → PyVal) (i ts t now : Nat) (v1 v2 : PyVal)
    (r1 r2 : PyVal × TemporalAttribute × Heap)
    (hlt : ∀ p ∈ snapshotsObs st i, p.1 < ts) (hts : ts ≤ t)
    (hr1 : setSnapshotForInstance st h i v1 ts = r1)
    (hr2 : setSnapshotForInstance r1.2.1 r1.2.2 i v2 ts = r2) :
    (getStep r2.2.1 r2.2.2 f i (some t) now).1 =
      .ok (.historical (deepcopy r1.2.2 v2).1) := by
  subst hr1
  subst hr2
  rw [getStep_asOf]
  have hobs1 : snapshotsObs (setSnapshotForInstance st h i v1 ts).2.1 i =
      dictInsert (snapshotsObs st i) ts (deepcopy h v1).1 := by
    rw [snapshotsObs_setSnap, if_pos rfl]
  have hobs2 : snapshotsObs
      (setSnapshotForInstance (setSnapshotForInstance st h i v1 ts).2.1
        (setSnapshotForInstance st h i v1 ts).2.2 i v2 ts).2.1 i =
      snapshotsObs st i ++
        [(ts, (deepcopy (setSnapshotForInstance st h i v1 ts).2.2 v2).1)] := by
    rw [snapshotsObs_setSnap, if_pos rfl, hobs1, dictInsert_insert_same,
      dictInsert_of_get_none]
    exact dictGet_eq_none_of_forall _ _ fun p hp => Nat.ne_of_lt (hlt p hp)
  rw [hobs2]
  have hfil : (snapshotsObs st i ++
      [(ts, (deepcopy (setSnapshotForInstance st h i v1 ts).2.2 v2).1)]).filter
        (fun p => p.1 ≤ t) =
      snapshotsObs st i ++
        [(ts, (deepcopy (setSnapshotForInstance st h i v1 ts).2.2 v2).1)] := by
    rw [List.filter_eq_self]
    intro a ha
    rcases List.mem_append.mp ha with hm | hm
    · simpa using le_trans (Nat.le_of_lt (hlt a hm)) hts
    · simp only [List.mem_singleton] at hm
      rw [hm]
      simpa using hts
  rw [hfil]
  rw [maxValid_last _ _ fun q hq => hlt q hq]

/-- Witness for C7: snapshotting 7 then 8 under the same timestamp 5 on a
fresh field, then reading at viewpoint 5, returns 8 — the later-inserted
snapshot. -/
theorem same_timestamp_snapshot_tiebreak_witness :
    (getStep (setSnapshotForInstance
        (setSnapshotForInstance (emptyAttr "r") emptyHeap 0 (PyVal.pyint 7) 5).2.1
        (setSnapshotForInstance (emptyAttr "r") emptyHeap 0 (PyVal.pyint 7) 5).2.2
        0 (PyVal.pyint 8) 5).2.1
      (setSnapshotForInstance
        (setSnapshotForInstance (emptyAttr "r") emptyHeap 0 (PyVal.pyint 7) 5).2.1
        (setSnapshotForInstance (emptyAttr "r") emptyHeap 0 (PyVal.pyint 7) 5).2.2
        0 (PyVal.pyint 8) 5).2.2 intFactory 0 (some 5) 0).1 =
      .ok (.historical (PyVal.pyint 8)) :=
  same_timestamp_snapshot_tiebreak (emptyAttr "r") emptyHeap intFactory 0 5 5 0
    (PyVal.pyint 7) (PyVal.pyint 8) _ _ (by decide) (by decide) rfl rfl

/-- C3: On a fresh (instance, field) — flag unset and history empty — the
first normal read invokes the factory (flag `true`), returns its value
wrapped, records it as the current value and as exactly one history
snapshot; and after any further operation sequence, a normal read invokes
no factory and leaves the whole state unchanged (hence creates no
snapshot). -/
theorem lazy_init_once (st : TemporalAttribute) (h : Heap) (f : Nat → PyVal)
    (i now : Nat) (r : Except TemporalError GetResult × TemporalAttribute × Heap × Bool)
    (hset : valueSetObs st i = false) (hsnaps : snapshotsObs st i = [])
    (hread : getStep st h f i none now = r) :
    r.2.2.2 = true ∧
    r.1 = .ok (.temporalValue (f i) i) ∧
    currentObs r.2.1 i = f i ∧
    valueSetObs r.2.1 i = true ∧
    snapshotsObs r.2.1 i = [(now, (deepcopy h (f i)).1)] ∧
    ∀ (ops : List Op) (ts2 : Nat),
      getStep (runOps f (r.2.1, r.2.2.1) ops).1 (runOps f (r.2.1, r.2.2.1) ops).2
          f i none ts2 =
        (.ok (.temporalValue (currentObs (runOps f (r.2.1, r.2.2.1) ops).1 i) i),
         (runOps f (r.2.1, r.2.2.1) ops).1, (runOps f (r.2.1, r.2.2.1) ops).2, false) := by
  subst hread
  rw [getStep_normal_fresh st h f i now hset]
  refine ⟨rfl, rfl, ?_, ?_, ?_, ?_⟩
  · rw [currentObs_setSnap, if_pos rfl]
  · rw [valueSetObs_setSnap, if_pos rfl]
  · rw [snapshotsObs_setSnap, if_pos rfl, snapshotsObs_ensureAll, hsnaps]
    rfl
  · intro ops ts2
    have hready : readyInv (setSnapshotForInstance (ensureAll st i) h i (f i) now).2.1 i :=
      readyInv_setSnap (ensureAll st i) h i (f i) now i (Or.inl rfl)
    have hready2 := readyInv_runOps f
      ((setSnapshotForInstance (ensureAll st i) h i (f i) now).2.1, (deepcopy h (f i)).2)
      ops i hready
    exact getStep_normal_ready _ _ f i ts2 hready2

/-- Witness for C3: a fresh field with an integer factory, read at time 5,
then written to; the follow-up normal read at time 6 returns the assigned
value, invokes no factory, and changes nothing. -/
theorem lazy_init_once_witness :
    snapshotsObs (getStep (emptyAttr "r") emptyHeap intFactory 0 none 5).2.1 0 =
      [(5, PyVal.pyint 3)] ∧
    getStep (runOps intFactory
        ((getStep (emptyAttr "r") emptyHeap intFactory 0 none 5).2.1,
         (getStep (emptyAttr "r") emptyHeap intFactory 0 none 5).2.2.1)
        [Op.assign 0 (PyVal.pyint 7)]).1
      (runOps intFactory
        ((getStep (emptyAttr "r") emptyHeap intFactory 0 none 5).2.1,
         (getStep (emptyAttr "r") emptyHeap intFactory 0 none 5).2.2.1)
        [Op.assign 0 (PyVal.pyint 7)]).2 intFactory 0 none 6 =
      (.ok (.temporalValue (currentObs (runOps intFactory
          ((getStep (emptyAttr "r") emptyHeap intFactory 0 none 5).2.1,
           (getStep (emptyAttr "r") emptyHeap intFactory 0 none 5).2.2.1)
          [Op.assign 0 (PyVal.pyint 7)]).1 0) 0),
       (runOps intFactory
          ((getStep (emptyAttr "r") emptyHeap intFactory 0 none 5).2.1,
           (getStep (emptyAttr "r") emptyHeap intFactory 0 none 5).2.2.1)
          [Op.assign 0 (PyVal.pyint 7)]).1,
       (runOps intFactory
          ((getStep (emptyAttr "r") emptyHeap intFactory 0 none 5).2.1,
           (getStep (emptyAttr "r") emptyHeap intFactory 0 none 5).2.2.1)
          [Op.assign 0 (PyVal.pyint 7)]).2, false) :=
  ⟨(lazy_init_once (emptyAttr "r") emptyHeap intFactory 0 5 _ rfl rfl rfl).2.2.2.2.1,
   (lazy_init_once (emptyAttr "r") emptyHeap intFactory 0 5 _ rfl rfl
      rfl).2.2.2.2.2 [Op.assign 0 (PyVal.pyint 7)] 6⟩

/-- C9: If the first operation on a fresh (instance, field) is a plain
assignment, then after any further sequence of operations that never
explicitly snapshots that field, the history is still empty, every normal
read returns the most recently assigned value without invoking the
factory or changing state, and every time-travel read at any viewpoint
fails with `NoSnapshotError`. -/
theorem first_write_keeps_history_empty (st : TemporalAttribute) (h : Heap)
    (f : Nat → PyVal) (i : Nat) (v : PyVal) (ops : List Op)
    (s2 : TemporalAttribute × Heap)
    (hsnaps : snapshotsObs st i = [])
    (hops : ∀ op ∈ ops, keepsHistoryBlank i op = true)
    (hrun : runOps f (setStep st i v, h) ops = s2) :
    snapshotsObs s2.1 i = [] ∧
    currentObs s2.1 i = lastAssigned i ops v ∧
    (∀ ts2, getStep s2.1 s2.2 f i none ts2 =
      (.ok (.temporalValue (lastAssigned i ops v) i), s2.1, s2.2, false)) ∧
    (∀ t now, (getStep s2.1 s2.2 f i (some t) now).1 =
      .error (.noSnapshot st.name t)) := by
  subst hrun
  have hr0 : readyInv (setStep st i v) i := readyInv_setStep st i v i (Or.inl rfl)
  have hs0 : snapshotsObs (setStep st i v) i = [] := by
    rw [snapshotsObs_setStep]
    exact hsnaps
  have hc0 : currentObs (setStep st i v) i = v := by
    rw [currentObs_setStep, if_pos rfl]
  obtain ⟨hr2, hs2, hc2⟩ := runOps_blankInv f i ops (setStep st i v) h hops hr0 hs0
  rw [hc0] at hc2
  refine ⟨hs2, hc2, ?_, ?_⟩
  · intro ts2
    rw [getStep_normal_ready _ _ f i ts2 hr2, hc2]
  · intro t now
    rw [getStep_asOf, hs2]
    have hname : (runOps f (setStep st i v, h) ops).1.name = st.name := by
      rw [runOps_name, setStep_name]
    rw [hname]
    rfl

/-- Witness for C9: write 7 to a fresh field, then run a normal read, a
failing time-travel read, and another write of 9; the history is still
empty, a normal read at time 6 returns 9, and a time-travel read at
viewpoint 100 fails. -/
theorem first_write_keeps_history_empty_witness :
    snapshotsObs (runOps intFactory (setStep (emptyAttr "r") 0 (PyVal.pyint 7), emptyHeap)
        [Op.readNormal 0 1, Op.readAsOf 0 50, Op.assign 0 (PyVal.pyint 9)]).1 0 = [] ∧
    (getStep (runOps intFactory (setStep (emptyAttr "r") 0 (PyVal.pyint 7), emptyHeap)
          [Op.readNormal 0 1, Op.readAsOf 0 50, Op.assign 0 (PyVal.pyint 9)]).1
        (runOps intFactory (setStep (emptyAttr "r") 0 (PyVal.pyint 7), emptyHeap)
          [Op.readNormal 0 1, Op.readAsOf 0 50, Op.assign 0 (PyVal.pyint 9)]).2
        intFactory 0 (some 100) 0).1 = .error (.noSnapshot "r" 100) :=
  ⟨(first_write_keeps_history_empty (emptyAttr "r") emptyHeap intFactory 0
      (PyVal.pyint 7) [Op.readNormal 0 1, Op.readAsOf 0 50, Op.assign 0 (PyVal.pyint 9)]
      _ rfl (by decide) rfl).1,
   (first_write_keeps_history_empty (emptyAttr "r") emptyHeap intFactory 0
      (PyVal.pyint 7) [Op.readNormal 0 1, Op.readAsOf 0 50, Op.assign 0 (PyVal.pyint 9)]
      _ rfl (by decide) rfl).2.2.2 100 0⟩

/-- C2 (amended): For a live object stored via `recordSnapshot` that is
deep-copyable, or shallow-copyable via `__copy__` (the first fallback),
the history receives a fresh copy: mutating the live current value
afterwards does not change the value returned by an as-of query for the
snapshot's timestamp (nor its observed contents), mutating the stored
snapshot never affects the live current value, and two snapshots stored
in sequence occupy distinct fresh objects, so mutating one never affects
the other. -/
theorem snapshot_isolation_deepcopy (st : TemporalAttribute) (h : Heap)
    (f : Nat → PyVal) (i ts now : Nat) (a : Nat) (o : HeapObj)
    (r : PyVal × TemporalAttribute × Heap)
    (hwf : heapWF h) (ha : dictGet h.mem a = some o)
    (hdc : o.deepCopyable = true ∨ o.hasCopyMethod = true)
    (hempty : snapshotsObs st i = [])
    (hr : setSnapshotForInstance st h i (.ref a) ts = r) :
    currentObs r.2.1 i = .ref a ∧
    snapshotsObs r.2.1 i = [(ts, .ref h.next)] ∧
    (∀ fs : List Int,
      (getStep r.2.1 (mutateObj r.2.2 a fs) f i (some ts) now).1 =
        .ok (.historical (.ref h.next)) ∧
      observe (mutateObj r.2.2 a fs) (.ref h.next) = .oobj o.fields) ∧
    (∀ gs : List Int,
      observe (mutateObj r.2.2 h.next gs) (.ref a) = observe r.2.2 (.ref a)) ∧
    (∀ (ts2 : Nat) (r2 : PyVal × TemporalAttribute × Heap),
      setSnapshotForInstance r.2.1 r.2.2 i (.ref a) ts2 = r2 →
      ∀ gs : List Int,
        observe (mutateObj r2.2.2 h.next gs) (.ref (h.next + 1)) = .oobj o.fields ∧
        observe (mutateObj r2.2.2 (h.next + 1) gs) (.ref h.next) = .oobj o.fields) := by
  subst hr
  have halt : a < h.next := addr_lt_next h a o hwf ha
  have hane : a ≠ h.next := Nat.ne_of_lt halt
  have hnea : h.next ≠ a := fun hx => hane hx.symm
  have hcp : deepcopy h (PyVal.ref a) =
      (.ref h.next, ⟨dictInsert h.mem h.next o, h.next + 1⟩) :=
    deepcopy_copyable h a o ha hdc
  have hheap : (setSnapshotForInstance st h i (.ref a) ts).2.2 =
      (⟨dictInsert h.mem h.next o, h.next + 1⟩ : Heap) := by
    rw [setSnap_heap, hcp]
  have hget1 : dictGet (dictInsert h.mem h.next o) h.next = some o := by
    rw [dictGet_insert, if_pos rfl]
  have hgeta : dictGet (dictInsert h.mem h.next o) a = some o := by
    rw [dictGet_insert, if_neg hnea, ha]
  have hsnobs : snapshotsObs (setSnapshotForInstance st h i (.ref a) ts).2.1 i =
      [(ts, .ref h.next)] := by
    rw [snapshotsObs_setSnap, if_pos rfl, hempty, hcp]
    rfl
  refine ⟨?_, hsnobs, ?_, ?_, ?_⟩
  · rw [currentObs_setSnap, if_pos rfl]
  · intro fs
    constructor
    · rw [getStep_asOf, hsnobs]
      simp [maxValid, maxStep]
    · rw [hheap, observe_mutate_ne _ a h.next fs hane]
      exact observe_ref _ h.next o hget1
  · intro gs
    rw [hheap, observe_mutate_ne _ h.next a gs hnea]
  · intro ts2 r2 hreq gs
    subst hreq
    have hheap2 : (setSnapshotForInstance (setSnapshotForInstance st h i (.ref a) ts).2.1
        (setSnapshotForInstance st h i (.ref a) ts).2.2 i (.ref a) ts2).2.2 =
        (⟨dictInsert (dictInsert h.mem h.next o) (h.next + 1) o, h.next + 2⟩ : Heap) := by
      rw [setSnap_heap, hheap, deepcopy_copyable _ a o hgeta hdc]
    have hgetb : dictGet (dictInsert (dictInsert h.mem h.next o) (h.next + 1) o)
        (h.next + 1) = some o := by
      rw [dictGet_insert, if_pos rfl]
    have hgetc : dictGet (dictInsert (dictInsert h.mem h.next o) (h.next + 1) o)
        h.next = some o := by
      rw [dictGet_insert, if_neg (Nat.ne_of_gt (Nat.lt_succ_self _)), hget1]
    constructor
    · rw [hheap2,
        observe_mutate_ne _ h.next (h.next + 1) gs (Nat.ne_of_lt (Nat.lt_succ_self _))]
      exact observe_ref _ _ o hgetb
    · rw [hheap2,
        observe_mutate_ne _ (h.next + 1) h.next gs (Nat.ne_of_gt (Nat.lt_succ_self _))]
      exact observe_ref _ _ o hgetc

/-- Witness for C2: a one-object heap holding, at address 0, an object
`[1, 2]` that is not deep-copyable but has `__copy__` (the shallow-copy
fallback); after snapshotting it at timestamp 5, mutating the live object
to `[9]` leaves the stored snapshot (the fresh copy at address 1)
observing `[1, 2]`, and the as-of read at 5 returns that copy. -/
theorem snapshot_isolation_deepcopy_witness :
    (getStep (setSnapshotForInstance (emptyAttr "d")
          ⟨[(0, ⟨[1, 2], false, true⟩)], 1⟩ 0 (PyVal.ref 0) 5).2.1
        (mutateObj (setSnapshotForInstance (emptyAttr "d")
          ⟨[(0, ⟨[1, 2], false, true⟩)], 1⟩ 0 (PyVal.ref 0) 5).2.2 0 [9])
        intFactory 0 (some 5) 0).1 = .ok (.historical (PyVal.ref 1)) ∧
    observe (mutateObj (setSnapshotForInstance (emptyAttr "d")
        ⟨[(0, ⟨[1, 2], false, true⟩)], 1⟩ 0 (PyVal.ref 0) 5).2.2 0 [9])
      (PyVal.ref 1) = .oobj [1, 2] :=
  (snapshot_isolation_deepcopy (emptyAttr "d") ⟨[(0, ⟨[1, 2], false, true⟩)], 1⟩
    intFactory 0 5 0 0 ⟨[1, 2], false, true⟩ _ (by unfold heapWF; decide) (by decide)
    (by decide) (by decide) rfl).2.2.1 [9]

/-- Counterexample for C2 as stated universally: for an object that is
neither deep-copyable nor shallow-copyable, the code stores the reference
itself as the snapshot (the fallback of lines 380-382), so mutating the
live current value afterwards does change the observed contents of the
value an as-of query returns. -/
theorem snapshot_isolation_counterexample :
    dictGet (snapshotsObs (setSnapshotForInstance (emptyAttr "d")
        ⟨[(0, ⟨[0], false, false⟩)], 1⟩ 0 (PyVal.ref 0) 5).2.1 0) 5 =
      some (PyVal.ref 0) ∧
    observe (setSnapshotForInstance (emptyAttr "d")
        ⟨[(0, ⟨[0], false, false⟩)], 1⟩ 0 (PyVal.ref 0) 5).2.2 (PyVal.ref 0) =
      .oobj [0] ∧
    observe (mutateObj (setSnapshotForInstance (emptyAttr "d")
        ⟨[(0, ⟨[0], false, false⟩)], 1⟩ 0 (PyVal.ref 0) 5).2.2 0 [99]) (PyVal.ref 0) =
      .oobj [99] ∧
    Obs.oobj ([99] : List Int) ≠ Obs.oobj ([0] : List Int) :=
  ⟨rfl, rfl, rfl, by decide⟩

end Anastasia
